import Mathlib

/-!
Shallow embedding in Lean 4 of the Context Derivation & Caching Engine from
`apis/seo_lab/context_chunking.py`, together with theorems settling the
claims the specification makes about it.

Python data values (the `Dict[str, Any]` pool and everything inside it) are
modelled by the inductive type `Val`; Python dictionaries are modelled as
association lists that keep insertion order, with `assocSet` reproducing
the assignment semantics of Python (update in place when the key exists, append
otherwise) and `assocLookup` returning the first binding of a key.

Conventions of the embedding:
* Python strings are `String`; character-level slicing and splitting is done
  on `String.data` (a `List Char`), matching the per-character semantics of Python.
* the Python falsiness test (`if not x`) is `falsy`.
* Paths on which the Python code would raise a `TypeError`/`AttributeError`
  because a pool field has a dynamically wrong type (for example a non-list
  `theme_keywords`) are outside the embedding; the corresponding Lean
  functions return the value unchanged there.  No claim exercises such a path.
* `sorted` with a descending volume key (`reverse=True`) is the
  unique stable descending sort by volume; `List.insertionSort` with the
  total preorder `kwLE` (defined below) computes exactly that list: it is a
  permutation, sorted descending by volume, and keeps the original relative
  order of records with equal volume (stability is proved in the theorem for
  the ranked-selection claim).
-/

namespace ContextChunking

/-- A Python value as stored in the context pool: a string, an integer, a
list, or a string-keyed dictionary (kept as an insertion-ordered
association list). -/
inductive Val where
  | str (s : String)
  | num (n : Int)
  | list (xs : List Val)
  | dict (fields : List (String × Val))

/-- A Python dictionary with string keys: an insertion-ordered association
list. -/
abbrev Obj := List (String × Val)

/-- First binding of a key in an association list (`d[k]` / `d.get(k)`). -/
def assocLookup {β : Type} : List (String × β) → String → Option β
  | [], _ => none
  | (k, v) :: rest, key => if k = key then some v else assocLookup rest key

/-- Python assignment `d[k] = v`: replace the value of the first binding of `k` if it
exists (keeping its position, as Python dicts do), otherwise append a new
binding at the end. -/
def assocSet {β : Type} : List (String × β) → String → β → List (String × β)
  | [], key, v => [(key, v)]
  | (k, w) :: rest, key, v =>
    if k = key then (k, v) :: rest else (k, w) :: assocSet rest key v

/-- `d.get(k, default)`. -/
def getField (o : Obj) (k : String) (d : Val) : Val := (assocLookup o k).getD d

/-- Python falsiness: `not x` for the values the pool can hold. -/
def falsy : Val → Bool
  | .str s => s = ""
  | .num n => n = 0
  | .list xs => xs.isEmpty
  | .dict kvs => kvs.isEmpty

/-- Python `s.split(sep)` for a one-character separator: splits at every
occurrence, keeping empty fragments, and yields `[""]` on the empty
string. -/
def splitChar (sep : Char) : List Char → List (List Char)
  | [] => [[]]
  | c :: cs =>
    let rest := splitChar sep cs
    if c = sep then [] :: rest
    else
      match rest with
      | r :: rs => (c :: r) :: rs
      | [] => [[c]]

/-- `_limit_products` on the string payload: split on `'.'`, keep the first
three fragments, rejoin with `". "` and append a final period. -/
def limitProductsStr (s : String) : String :=
  ⟨List.intercalate ('.' :: ' ' :: []) ((splitChar '.' s.data).take 3) ++ ['.']⟩

/-- `_limit_products`: falsy input is returned unchanged, a string is
sentence-limited, any other (truthy non-string) value is returned
unchanged. -/
def limitProducts (products : Val) : Val :=
  if falsy products then products
  else
    match products with
    | .str s => .str (limitProductsStr s)
    | v => v

/-- The ranking key of `_limit_keywords`: `x.get("Volume", 0)`, reading the
integer `Volume` field of a keyword record and treating a missing field
as `0`. -/
def volume (v : Val) : Int :=
  match v with
  | .dict kvs =>
    match assocLookup kvs "Volume" with
    | some (.num n) => n
    | _ => 0
  | _ => 0

/-- The ordering used by `sorted(..., a volume key,
reverse=True)`: record `a` may come before record `b` when its volume is at
least the volume of `b`. -/
def kwLE (a b : Val) : Prop := volume b ≤ volume a

instance : DecidableRel kwLE := fun a b => Int.decLe (volume b) (volume a)

instance : IsTotal Val kwLE := ⟨fun a b => le_total (volume b) (volume a)⟩

instance : IsTrans Val kwLE := ⟨fun _ _ _ h1 h2 => le_trans h2 h1⟩

/-- The stable descending sort by `Volume` performed by `_limit_keywords`. -/
def sortKeywords (ks : List Val) : List Val := ks.insertionSort kwLE

/-- `_limit_keywords` on the list payload: empty input is returned as is,
otherwise the records are stably sorted by descending volume and the first
five are kept. -/
def limitKeywordsList (ks : List Val) : List Val :=
  if ks.isEmpty then ks else (sortKeywords ks).take 5

/-- `_limit_keywords`: falsy input unchanged, a list is sorted and
truncated, any other (truthy non-list) value is returned unchanged. -/
def limitKeywords (v : Val) : Val :=
  if falsy v then v
  else
    match v with
    | .list ks => .list ((sortKeywords ks).take 5)
    | w => w

/-- `_summarize_strategy` on the character list of the input string: falsy
input yields the empty string, otherwise the first 200 characters, with a
`"..."` marker appended when the input was longer than 200 characters. -/
def summarizeStrategy (l : List Char) : List Char :=
  if l.isEmpty then []
  else
    let summary := l.take 200
    if 200 < l.length then summary ++ ('.' :: '.' :: '.' :: []) else summary

/-- `_summarize_strategy` lifted to pool values: a string is summarized, any
other falsy value yields `""` (the early `return ""`), truthy non-strings
are outside the embedding. -/
def summarizeStrategyVal (v : Val) : Val :=
  match v with
  | .str s => .str ⟨summarizeStrategy s.data⟩
  | w => if falsy w then .str "" else w

/-- Python slicing `x[:n]` for the sliceable pool values. -/
def sliceVal (n : Nat) : Val → Val
  | .list xs => .list (xs.take n)
  | .str s => .str ⟨s.data.take n⟩
  | v => v

/-- The per-theme record built by `_summarize_semantic_fields`: first five
`related_google` entries, the full `search_intent`, first three
`suggested_titles` entries. -/
def summarizeTheme (data : Obj) : Obj :=
  [("related_google", sliceVal 5 (getField data "related_google" (.list []))),
   ("search_intent", getField data "search_intent" (.str "")),
   ("suggested_titles", sliceVal 3 (getField data "suggested_titles" (.list [])))]

/-- The loop of `_summarize_semantic_fields`: themes whose value is a
dictionary are summarized and stored, all other themes are skipped. -/
def summarizeSemanticFieldsObj (kvs : Obj) : Obj :=
  kvs.foldl
    (fun acc kv =>
      match kv.2 with
      | .dict data => assocSet acc kv.1 (.dict (summarizeTheme data))
      | _ => acc)
    []

/-- `_summarize_semantic_fields`: falsy input yields an empty dictionary,
a dictionary is summarized theme by theme, truthy non-dictionaries are
outside the embedding. -/
def summarizeSemanticFields (v : Val) : Val :=
  if falsy v then .dict []
  else
    match v with
    | .dict kvs => .dict (summarizeSemanticFieldsObj kvs)
    | w => w

/-- The base context shared by every stage (`get_minimal_context`): brand,
voice, theme and name default to `""`, `preferred_language` defaults to
`"pt_BR"`. -/
def baseContext (pool : Obj) : Obj :=
  [("brand", getField pool "brand" (.str "")),
   ("voice", getField pool "voice" (.str "")),
   ("theme", getField pool "theme" (.str "")),
   ("name", getField pool "name" (.str "")),
   ("preferred_language", getField pool "preferred_language" (.str "pt_BR"))]

/-- the Python dictionary merge spreading `base` into a new literal: assign each new binding in
order on top of a copy of the base dictionary. -/
def extendObj (o : Obj) (kvs : List (String × Val)) : Obj :=
  kvs.foldl (fun acc kv => assocSet acc kv.1 kv.2) o

/-- `_get_strategy_context`. -/
def strategyContext (pool base : Obj) : Obj :=
  extendObj base
    [("benchmarks", getField pool "benchmarks" (.str "")),
     ("blog", getField pool "blog" (.str "")),
     ("format_recommendations", getField pool "format_recommendations" (.str ""))]

/-- `_get_products_context`. -/
def productsContext (pool base : Obj) : Obj :=
  extendObj base
    [("products", limitProducts (getField pool "products" (.str ""))),
     ("strategy_summary", summarizeStrategyVal (getField pool "strategy_output" (.str "")))]

/-- `_get_seo_context`. -/
def seoContext (pool base : Obj) : Obj :=
  extendObj base
    [("products", limitProducts (getField pool "products" (.str ""))),
     ("theme_keywords", limitKeywords (getField pool "theme_keywords" (.list []))),
     ("keyword_opportunities", limitKeywords (getField pool "keyword_opportunities" (.list []))),
     ("semantic_fields", summarizeSemanticFields (getField pool "semantic_fields" (.dict [])))]

/-- `_get_content_context`. -/
def contentContext (pool base : Obj) : Obj :=
  extendObj base
    [("products", limitProducts (getField pool "products" (.str ""))),
     ("theme_keywords", limitKeywords (getField pool "theme_keywords" (.list []))),
     ("keyword_opportunities", limitKeywords (getField pool "keyword_opportunities" (.list []))),
     ("semantic_fields", summarizeSemanticFields (getField pool "semantic_fields" (.dict []))),
     ("format_recommendations", getField pool "format_recommendations" (.str "")),
     ("blog", getField pool "blog" (.str "")),
     ("brief_summary", getField pool "brief_summary" (.str ""))]

/-- `_get_refinement_context`. -/
def refinementContext (pool base : Obj) : Obj :=
  extendObj base
    [("voice", getField pool "voice" (.str "")),
     ("benchmarks", getField pool "benchmarks" (.str "")),
     ("format_recommendations", getField pool "format_recommendations" (.str ""))]

/-- `_get_review_context`. -/
def reviewContext (pool base : Obj) : Obj :=
  extendObj base
    [("products", limitProducts (getField pool "products" (.str ""))),
     ("voice", getField pool "voice" (.str ""))]

/-- `_get_visual_context`. -/
def visualContext (pool base : Obj) : Obj :=
  extendObj base
    [("brand", getField pool "brand" (.str "")),
     ("voice", getField pool "voice" (.str ""))]

/-- The stage dispatch of `get_minimal_context`: pick the derivation rule by
stage name, falling back to the base context. -/
def stageContext (pool : Obj) (stage : String) : Obj :=
  let base := baseContext pool
  if stage = "strategy" then strategyContext pool base
  else if stage = "products" then productsContext pool base
  else if stage = "seo" then seoContext pool base
  else if stage = "content" then contentContext pool base
  else if stage = "refinement" then refinementContext pool base
  else if stage = "review" then reviewContext pool base
  else if stage = "visual" then visualContext pool base
  else base

/-- `_adjust_for_agent`: role-specific augmentation reading from the
already-derived view. -/
def adjustForAgent (role : String) (ctx : Obj) : Obj :=
  if role = "brand_strategist" then
    assocSet ctx "brand_context" (.dict
      [("brand", getField ctx "brand" (.str "")),
       ("voice", getField ctx "voice" (.str "")),
       ("benchmarks", getField ctx "benchmarks" (.str ""))])
  else if role = "seo_specialist" then
    assocSet ctx "seo_focus" (.dict
      [("theme_keywords", getField ctx "theme_keywords" (.list [])),
       ("keyword_opportunities", getField ctx "keyword_opportunities" (.list []))])
  else if role = "seo_copywriter" then
    assocSet ctx "content_focus" (.dict
      [("format_recommendations", getField ctx "format_recommendations" (.str "")),
       ("semantic_fields", getField ctx "semantic_fields" (.dict []))])
  else ctx

/-- The pure view computation of `get_minimal_context` (everything except
the cache): derivation rule for the stage followed by role augmentation. -/
def computeView (pool : Obj) (role stage : String) : Obj :=
  adjustForAgent role (stageContext pool stage)

/-- The cache key `f"{agent_role}_{task_stage}"`. -/
def cacheKey (role stage : String) : String := role ++ "_" ++ stage

/-- `ContextChunker`: the immutable full context plus the view cache. -/
structure Chunker where
  full_context : Obj
  context_cache : List (String × Obj)

/-- `ContextChunker.get_minimal_context` with the cache state passed
explicitly: return the cached view when the key is present, otherwise
compute, store and return it. -/
def getMinimalContext (c : Chunker) (role stage : String) : Obj × Chunker :=
  match assocLookup c.context_cache (cacheKey role stage) with
  | some v => (v, c)
  | none =>
    let ctx := computeView c.full_context role stage
    (ctx, ⟨c.full_context, assocSet c.context_cache (cacheKey role stage) ctx⟩)

/-- `TASK_STAGE_MAPPING`. -/
def TASK_STAGE_MAPPING : List (String × List (String × String)) :=
  [("brand_strategist",
     [("define_strategy", "strategy"), ("identify_products", "products")]),
   ("seo_specialist",
     [("map_opportunities", "seo"), ("generate_seo_metafields", "seo")]),
   ("content_strategist", [("plan_content", "content")]),
   ("seo_copywriter", [("write_content", "content")]),
   ("narrative_editor", [("refine_narrative", "refinement")]),
   ("content_reviewer", [("review_everything", "review")]),
   ("visual_consultant", [("suggest_elements", "visual")])]

/-- `get_task_stage`: a table lookup falling back to the empty row and then to `general`. -/
def getTaskStage (role task : String) : String :=
  match assocLookup TASK_STAGE_MAPPING role with
  | some m => (assocLookup m task).getD "general"
  | none => "general"

/-- The engine facade (`get_optimized_context` in `crew.py`): resolve the
stage for the task, then derive or fetch the cached view. -/
def getView (c : Chunker) (role task : String) : Obj × Chunker :=
  getMinimalContext c role (getTaskStage role task)

/-- The closed set of stage names `get_task_stage` can produce: the values
of `TASK_STAGE_MAPPING` plus the `general` fallback. -/
def stageNames : List String :=
  ["strategy", "products", "seo", "content", "refinement", "review", "visual", "general"]

/-- The roles present in the stage-resolver table. -/
def knownRoles : List String := TASK_STAGE_MAPPING.map Prod.fst

/-- The key added to a view by `_adjust_for_agent` for each role (empty for
unaugmented roles); used to state the amended form of the unknown-task
claim. -/
def augKeys (role : String) : List String :=
  if role = "brand_strategist" then ["brand_context"]
  else if role = "seo_specialist" then ["seo_focus"]
  else if role = "seo_copywriter" then ["content_focus"]
  else []

/-- The concrete pool of the end-to-end scenario claim; the four keyword
records beyond the two the claim fixes are chosen with distinct volumes
below 500 so that the `panels` record ranks first. -/
def kwRec (k : String) (n : Int) : Val := .dict [("kw", .str k), ("Volume", .num n)]

/-- The scenario pool: brand `Acme`, voice `bold`, theme `solar panels`,
six keyword records including `solar`/100 and `panels`/500, and the
products string `"A. B. C. D. E."`. -/
def demoPool : Obj :=
  [("brand", .str "Acme"), ("voice", .str "bold"), ("theme", .str "solar panels"),
   ("theme_keywords", .list
     [kwRec "solar" 100, kwRec "panels" 500, kwRec "wind" 50,
      kwRec "roof" 40, kwRec "grid" 30, kwRec "sun" 20]),
   ("products", .str "A. B. C. D. E.")]

/-- The top five scenario records by volume, `panels` first. -/
def demoLimited : List Val :=
  [kwRec "panels" 500, kwRec "solar" 100, kwRec "wind" 50, kwRec "roof" 40, kwRec "grid" 30]

/-! ### Association-list lemmas -/

theorem assocLookup_assocSet_self {β : Type} (l : List (String × β)) (k : String) (v : β) :
    assocLookup (assocSet l k v) k = some v := by
  induction l with
  | nil => simp [assocSet, assocLookup]
  | cons hd tl ih =>
    obtain ⟨k', w⟩ := hd
    by_cases h : k' = k
    · simp [assocSet, assocLookup, h]
    · simp [assocSet, assocLookup, h, ih]

theorem assocLookup_append_left {β : Type} {l : List (String × β)} {k : String} {v : β}
    (l' : List (String × β)) (h : assocLookup l k = some v) :
    assocLookup (l ++ l') k = some v := by
  induction l with
  | nil => simp [assocLookup] at h
  | cons hd tl ih =>
    obtain ⟨k', w⟩ := hd
    by_cases hk : k' = k
    · simp [assocLookup, hk] at h ⊢
      exact h
    · simp [assocLookup, hk] at h ⊢
      exact ih h

theorem assocLookup_mem {β : Type} {l : List (String × β)} {k : String} {v : β}
    (h : assocLookup l k = some v) : (k, v) ∈ l := by
  induction l with
  | nil => simp [assocLookup] at h
  | cons hd tl ih =>
    obtain ⟨k', w⟩ := hd
    by_cases hk : k' = k
    · simp [assocLookup, hk] at h
      subst hk h
      exact List.mem_cons_self _ _
    · simp [assocLookup, hk] at h
      exact List.mem_cons_of_mem _ (ih h)

theorem mem_assocSet {β : Type} {l : List (String × β)} {k' : String} {v' : β}
    (k : String) (v : β) (h : (k', v') ∈ assocSet l k v) :
    (k', v') ∈ l ∨ (k' = k ∧ v' = v) := by
  induction l with
  | nil =>
    simp [assocSet] at h
    exact Or.inr h
  | cons hd tl ih =>
    obtain ⟨k₀, w⟩ := hd
    by_cases hk : k₀ = k
    · subst hk
      simp [assocSet] at h
      rcases h with ⟨h1, h2⟩ | h
      · exact Or.inr ⟨h1.symm ▸ rfl, h2⟩
      · exact Or.inl (List.mem_cons_of_mem _ h)
    · simp [assocSet, hk] at h
      rcases h with ⟨h1, h2⟩ | h
      · exact Or.inl (by simp [h1, h2])
      · rcases ih h with h' | h'
        · exact Or.inl (List.mem_cons_of_mem _ h')
        · exact Or.inr h'

theorem assocLookup_assocSet_ne {β : Type} {l : List (String × β)} {k' k : String}
    (v : β) (hk : k' ≠ k) : assocLookup (assocSet l k v) k' = assocLookup l k' := by
  have hk' : ¬(k = k') := fun h => hk h.symm
  induction l with
  | nil => simp [assocSet, assocLookup, hk']
  | cons hd tl ih =>
    obtain ⟨k₀, w⟩ := hd
    by_cases h0 : k₀ = k
    · subst h0
      simp [assocSet, assocLookup, hk']
    · simp [assocSet, assocLookup, h0, ih]

/-! ### Claim theorems -/

/-- C1: for every pool, cache state, role and task, a second `get_view`
call with the same role and task returns a view structurally equal to the
answer of the first call, and on a fresh chunker the answer is exactly the
freshly computed (uncached) view — the cache never changes observable
behaviour. -/
theorem getView_pure (c : Chunker) (pool : Obj) (role task : String) :
    (getView (getView c role task).2 role task).1 = (getView c role task).1
    ∧ (getView ⟨pool, []⟩ role task).1
        = computeView pool role (getTaskStage role task) := by
  constructor
  · unfold getView getMinimalContext
    cases h : assocLookup c.context_cache (cacheKey role (getTaskStage role task)) with
    | some v => simp [h]
    | none => simp [h, assocLookup_assocSet_self]
  · unfold getView getMinimalContext
    simp [assocLookup]

/-- C2 (counterexample): on the scenario pool, the view for
`seo_specialist` / `map_opportunities` carries the products string
`"A.  B.  C."` (the period-split fragments keep their leading spaces, and
rejoining with `". "` doubles them), which differs from the claimed
`"A. B. C."`. -/
theorem demoView_products_ne_claimed :
    assocLookup (getView ⟨demoPool, []⟩ "seo_specialist" "map_opportunities").1 "products"
        = some (Val.str "A.  B.  C.")
    ∧ Val.str "A.  B.  C." ≠ Val.str "A. B. C." :=
  ⟨rfl, by simp⟩

/-- C2 (amended): on the scenario pool, `get_view("seo_specialist",
"map_opportunities")` resolves stage `seo`; the `theme_keywords` of the view is
the top five records by volume with the `panels` record first, its
`products` field is the string `"A.  B.  C."` (first three period-split
fragments rejoined with `". "` plus a trailing period), and its `seo_focus`
sub-section holds the same limited keyword list (and an empty
`keyword_opportunities` list, that pool field being absent). -/
theorem demoView_scenario :
    getTaskStage "seo_specialist" "map_opportunities" = "seo"
    ∧ assocLookup (getView ⟨demoPool, []⟩ "seo_specialist" "map_opportunities").1
        "theme_keywords" = some (Val.list demoLimited)
    ∧ assocLookup (getView ⟨demoPool, []⟩ "seo_specialist" "map_opportunities").1
        "products" = some (Val.str "A.  B.  C.")
    ∧ assocLookup (getView ⟨demoPool, []⟩ "seo_specialist" "map_opportunities").1
        "seo_focus" = some (Val.dict
          [("theme_keywords", Val.list demoLimited),
           ("keyword_opportunities", Val.list [])]) :=
  ⟨rfl, rfl, rfl, rfl⟩

/-- C3 (counterexample): on the empty pool the base-view field
`preferred_language` is `"pt_BR"`, not the empty string, so not every
base-view field of a view derived from an empty pool is the
type-appropriate empty value. -/
theorem emptyPool_preferred_language_not_empty :
    assocLookup (getView ⟨[], []⟩ "narrative_editor" "no_such_task").1 "preferred_language"
        = some (Val.str "pt_BR")
    ∧ Val.str "pt_BR" ≠ Val.str "" :=
  ⟨rfl, by simp⟩

/-- C3 (amended): when a referenced pool field is absent every derivation
rule substitutes the type-appropriate empty value — empty string for string
fields, empty list for keyword lists, empty mapping for semantic fields —
with the single exception of `preferred_language`, which substitutes the
default `"pt_BR"`; no lookup fails.  The conjuncts enumerate every pool
field referenced by the base view (conjuncts 1–5) and by each of the seven
stage rules: `strategy` reads benchmarks, blog and format_recommendations
(6–8); `products` reads products and strategy_output (9–10); `seo` reads
products, theme_keywords, keyword_opportunities and semantic_fields
(11–14); `content` reads those four plus format_recommendations, blog and
brief_summary (15–21); `refinement` reads voice, benchmarks and
format_recommendations (22–24); `review` reads products and voice (25–26);
`visual` reads brand and voice (27–28).  The `general` fallback reads no
pool field beyond the base view. -/
theorem missing_fields_default (pool : Obj) :
    (assocLookup pool "brand" = none →
      assocLookup (baseContext pool) "brand" = some (Val.str ""))
    ∧ (assocLookup pool "voice" = none →
      assocLookup (baseContext pool) "voice" = some (Val.str ""))
    ∧ (assocLookup pool "theme" = none →
      assocLookup (baseContext pool) "theme" = some (Val.str ""))
    ∧ (assocLookup pool "name" = none →
      assocLookup (baseContext pool) "name" = some (Val.str ""))
    ∧ (assocLookup pool "preferred_language" = none →
      assocLookup (baseContext pool) "preferred_language" = some (Val.str "pt_BR"))
    ∧ (assocLookup pool "benchmarks" = none →
      assocLookup (stageContext pool "strategy") "benchmarks" = some (Val.str ""))
    ∧ (assocLookup pool "blog" = none →
      assocLookup (stageContext pool "strategy") "blog" = some (Val.str ""))
    ∧ (assocLookup pool "format_recommendations" = none →
      assocLookup (stageContext pool "strategy") "format_recommendations"
        = some (Val.str ""))
    ∧ (assocLookup pool "products" = none →
      assocLookup (stageContext pool "products") "products" = some (Val.str ""))
    ∧ (assocLookup pool "strategy_output" = none →
      assocLookup (stageContext pool "products") "strategy_summary" = some (Val.str ""))
    ∧ (assocLookup pool "products" = none →
      assocLookup (stageContext pool "seo") "products" = some (Val.str ""))
    ∧ (assocLookup pool "theme_keywords" = none →
      assocLookup (stageContext pool "seo") "theme_keywords" = some (Val.list []))
    ∧ (assocLookup pool "keyword_opportunities" = none →
      assocLookup (stageContext pool "seo") "keyword_opportunities" = some (Val.list []))
    ∧ (assocLookup pool "semantic_fields" = none →
      assocLookup (stageContext pool "seo") "semantic_fields" = some (Val.dict []))
    ∧ (assocLookup pool "products" = none →
      assocLookup (stageContext pool "content") "products" = some (Val.str ""))
    ∧ (assocLookup pool "theme_keywords" = none →
      assocLookup (stageContext pool "content") "theme_keywords" = some (Val.list []))
    ∧ (assocLookup pool "keyword_opportunities" = none →
      assocLookup (stageContext pool "content") "keyword_opportunities"
        = some (Val.list []))
    ∧ (assocLookup pool "semantic_fields" = none →
      assocLookup (stageContext pool "content") "semantic_fields" = some (Val.dict []))
    ∧ (assocLookup pool "format_recommendations" = none →
      assocLookup (stageContext pool "content") "format_recommendations"
        = some (Val.str ""))
    ∧ (assocLookup pool "blog" = none →
      assocLookup (stageContext pool "content") "blog" = some (Val.str ""))
    ∧ (assocLookup pool "brief_summary" = none →
      assocLookup (stageContext pool "content") "brief_summary" = some (Val.str ""))
    ∧ (assocLookup pool "voice" = none →
      assocLookup (stageContext pool "refinement") "voice" = some (Val.str ""))
    ∧ (assocLookup pool "benchmarks" = none →
      assocLookup (stageContext pool "refinement") "benchmarks" = some (Val.str ""))
    ∧ (assocLookup pool "format_recommendations" = none →
      assocLookup (stageContext pool "refinement") "format_recommendations"
        = some (Val.str ""))
    ∧ (assocLookup pool "products" = none →
      assocLookup (stageContext pool "review") "products" = some (Val.str ""))
    ∧ (assocLookup pool "voice" = none →
      assocLookup (stageContext pool "review") "voice" = some (Val.str ""))
    ∧ (assocLookup pool "brand" = none →
      assocLookup (stageContext pool "visual") "brand" = some (Val.str ""))
    ∧ (assocLookup pool "voice" = none →
      assocLookup (stageContext pool "visual") "voice" = some (Val.str "")) := by
  refine ⟨?_, ?_, ?_, ?_, ?_, ?_, ?_, ?_, ?_, ?_, ?_, ?_, ?_, ?_, ?_, ?_, ?_, ?_,
    ?_, ?_, ?_, ?_, ?_, ?_, ?_, ?_, ?_, ?_⟩ <;>
    · intro h
      simp [stageContext, baseContext, strategyContext, productsContext, seoContext,
        contentContext, refinementContext, reviewContext, visualContext, extendObj,
        assocSet, assocLookup, getField, h, limitProducts, limitKeywords,
        summarizeStrategyVal, summarizeStrategy, summarizeSemanticFields, falsy]

/-- C3 (witness): the amended theorem applied to the empty pool, sampling
the base view and one field of every stage rule that the base view does
not already cover. -/
theorem missing_fields_default_empty :
    assocLookup ([] : Obj) "brand" = none
    ∧ assocLookup (baseContext []) "brand" = some (Val.str "")
    ∧ assocLookup (baseContext []) "preferred_language" = some (Val.str "pt_BR")
    ∧ assocLookup (stageContext [] "strategy") "blog" = some (Val.str "")
    ∧ assocLookup (stageContext [] "products") "strategy_summary" = some (Val.str "")
    ∧ assocLookup (stageContext [] "seo") "theme_keywords" = some (Val.list [])
    ∧ assocLookup (stageContext [] "content") "format_recommendations" = some (Val.str "")
    ∧ assocLookup (stageContext [] "refinement") "voice" = some (Val.str "")
    ∧ assocLookup (stageContext [] "review") "products" = some (Val.str "")
    ∧ assocLookup (stageContext [] "visual") "brand" = some (Val.str "") := by
  obtain ⟨h1, h2, h3, h4, h5, h6, h7, h8, h9, h10, h11, h12, h13, h14, h15, h16,
    h17, h18, h19, h20, h21, h22, h23, h24, h25, h26, h27, h28⟩ :=
    missing_fields_default []
  exact ⟨rfl, h1 rfl, h5 rfl, h7 rfl, h10 rfl, h12 rfl, h19 rfl, h22 rfl,
    h25 rfl, h27 rfl⟩

/-- C6: `_summarize_strategy` leaves strings of at most 200 characters
unchanged (including the empty string) and maps longer strings to exactly
their first 200 characters followed by the marker `"..."`. -/
theorem summarizeStrategy_spec (l : List Char) :
    (200 < l.length →
      summarizeStrategy l = l.take 200 ++ ('.' :: '.' :: '.' :: [])
      ∧ (l.take 200).length = 200)
    ∧ (l.length ≤ 200 → summarizeStrategy l = l) := by
  constructor
  · intro h
    have hne : ¬ l.isEmpty := by
      cases l with
      | nil => simp at h
      | cons a t => simp
    refine ⟨by simp [summarizeStrategy, hne, h], ?_⟩
    simp [List.length_take]
    omega
  · intro h
    by_cases hb : l.isEmpty
    · have : l = [] := List.isEmpty_iff.mp hb
      simp [this, summarizeStrategy]
    · have h2 : ¬ 200 < l.length := by omega
      simp [summarizeStrategy, hb, h2, List.take_of_length_le h]

set_option maxRecDepth 4000 in
/-- C6 (witness): the theorem applied to a 201-character string and to a
short string. -/
theorem summarizeStrategy_spec_witness :
    (200 < (List.replicate 201 'a').length
      ∧ summarizeStrategy (List.replicate 201 'a')
          = (List.replicate 201 'a').take 200 ++ ('.' :: '.' :: '.' :: []))
    ∧ summarizeStrategy "hi".data = "hi".data :=
  ⟨⟨by decide, ((summarizeStrategy_spec (List.replicate 201 'a')).1 (by decide)).1⟩,
    (summarizeStrategy_spec "hi".data).2 (by decide)⟩

/-- The task table of one role: `TASK_STAGE_MAPPING.get(role, {})`. -/
def taskMapOf (role : String) : List (String × String) :=
  (assocLookup TASK_STAGE_MAPPING role).getD []

/-- The stage resolver factored through `taskMapOf`: both `.get` steps of
`get_task_stage` in sequence. -/
theorem getTaskStage_eq (role task : String) :
    getTaskStage role task = (assocLookup (taskMapOf role) task).getD "general" := by
  unfold getTaskStage taskMapOf
  cases h : assocLookup TASK_STAGE_MAPPING role <;> simp [assocLookup]

/-- C4 (counterexample): for the known role `brand_strategist` and an
unmapped task the stage resolves to `general`, but the returned view does
not contain only the five base fields: role augmentation still runs and
adds a sixth key `brand_context`. -/
theorem knownRole_unknownTask_augmented :
    getTaskStage "brand_strategist" "no_such_task" = "general"
    ∧ ((getView ⟨[], []⟩ "brand_strategist" "no_such_task").1).map Prod.fst
        = ["brand", "voice", "theme", "name", "preferred_language", "brand_context"] :=
  ⟨rfl, rfl⟩

/-- C4 (amended): for every known role and every task not mapped for that
role, the request resolves to stage `general` and the returned view holds
the five base fields `brand, voice, theme, name, preferred_language` with
no stage-specific additions, plus — for the three augmented roles
`brand_strategist`, `seo_specialist` and `seo_copywriter` — the augmentation sub-section of that role; for every other known role the view is exactly
the base view. -/
theorem knownRole_unknownTask_general (pool : Obj) (role task : String)
    (hrole : role ∈ knownRoles)
    (htask : assocLookup (taskMapOf role) task = none) :
    getTaskStage role task = "general"
    ∧ ((getView ⟨pool, []⟩ role task).1).map Prod.fst
        = ["brand", "voice", "theme", "name", "preferred_language"] ++ augKeys role
    ∧ (augKeys role = [] → (getView ⟨pool, []⟩ role task).1 = baseContext pool) := by
  have hstage : getTaskStage role task = "general" := by
    rw [getTaskStage_eq, htask]
    rfl
  have hks : role = "brand_strategist" ∨ role = "seo_specialist"
      ∨ role = "content_strategist" ∨ role = "seo_copywriter"
      ∨ role = "narrative_editor" ∨ role = "content_reviewer"
      ∨ role = "visual_consultant" := by
    simpa [knownRoles, TASK_STAGE_MAPPING] using hrole
  rcases hks with rfl | rfl | rfl | rfl | rfl | rfl | rfl <;>
    · refine ⟨hstage, ?_, ?_⟩
      · simp only [getView, hstage]
        rfl
      · intro ha
        first
        | exact absurd ha (by decide)
        | · simp only [getView, hstage]
            rfl

/-- C4 (witness): the amended theorem applied to the known, unaugmented
role `content_reviewer` and the unmapped task `zzz` on the empty pool. -/
theorem knownRole_unknownTask_general_witness :
    getTaskStage "content_reviewer" "zzz" = "general"
    ∧ (getView ⟨[], []⟩ "content_reviewer" "zzz").1 = baseContext [] := by
  have h := knownRole_unknownTask_general [] "content_reviewer" "zzz"
    (by decide) (by decide)
  exact ⟨h.1, h.2.2 (by decide)⟩

/-- C7: `_limit_keywords` equals taking the first five records of the
stable descending sort by `Volume`; the result is always sorted descending;
for every volume value the records carrying it keep their original relative
order (stability); for inputs of length at least five with pairwise
distinct volumes the result has exactly five records in strictly descending
volume order; for inputs shorter than five the result is the whole input
(as a permutation, merely reordered by volume); and a record without a
`Volume` field ranks as volume `0`. -/
theorem limitKeywords_spec (ks : List Val) :
    limitKeywordsList ks = (sortKeywords ks).take 5
    ∧ List.Pairwise kwLE (limitKeywordsList ks)
    ∧ (∀ v : Int, (sortKeywords ks).filter (fun r => decide (volume r = v))
        = ks.filter (fun r => decide (volume r = v)))
    ∧ (5 ≤ ks.length → ks.Pairwise (fun a b => volume a ≠ volume b) →
        (limitKeywordsList ks).length = 5
        ∧ (limitKeywordsList ks).Pairwise (fun a b => volume b < volume a))
    ∧ (ks.length < 5 → List.Perm (limitKeywordsList ks) ks)
    ∧ (∀ kvs : List (String × Val), assocLookup kvs "Volume" = none →
        volume (Val.dict kvs) = 0) := by
  have heq : limitKeywordsList ks = (sortKeywords ks).take 5 := by
    cases ks with
    | nil => rfl
    | cons a t => rfl
  have hsorted : List.Pairwise kwLE (sortKeywords ks) :=
    List.sorted_insertionSort kwLE ks
  have hperm : List.Perm (sortKeywords ks) ks := List.perm_insertionSort kwLE ks
  refine ⟨heq, ?_, ?_, ?_, ?_, ?_⟩
  · rw [heq]
    exact hsorted.sublist (List.take_sublist 5 _)
  · intro v
    have hfs : List.Sublist (ks.filter (fun r => decide (volume r = v))) ks :=
      List.filter_sublist ks
    have hppw : (ks.filter (fun r => decide (volume r = v))).Pairwise kwLE := by
      refine List.pairwise_of_forall_mem_list ?_
      intro a ha b hb
      have ha2 : volume a = v := by simpa using (List.mem_filter.mp ha).2
      have hb2 : volume b = v := by simpa using (List.mem_filter.mp hb).2
      show volume b ≤ volume a
      rw [ha2, hb2]
    have h1 := List.sublist_insertionSort hppw hfs
    have h2 := h1.filter (fun r => decide (volume r = v))
    have h3 : (ks.filter (fun r => decide (volume r = v))).filter
        (fun r => decide (volume r = v)) = ks.filter (fun r => decide (volume r = v)) := by
      simp [List.filter_filter]
    rw [h3] at h2
    have h4 := hperm.filter (fun r => decide (volume r = v))
    exact (h2.eq_of_length h4.length_eq.symm).symm
  · intro h5 hdist
    constructor
    · rw [heq, List.length_take]
      have hlen : (sortKeywords ks).length = ks.length := by
        simp [sortKeywords]
      rw [hlen]
      omega
    · have hne : (sortKeywords ks).Pairwise (fun a b => volume a ≠ volume b) :=
        (hperm.pairwise_iff (@fun _ _ hab => Ne.symm hab)).mpr hdist
      have hstrict : (sortKeywords ks).Pairwise (fun a b => volume b < volume a) :=
        (hsorted.and hne).imp
          (fun hab => lt_of_le_of_ne hab.1 (fun h => hab.2 h.symm))
      rw [heq]
      exact hstrict.sublist (List.take_sublist 5 _)
  · intro hlt
    rw [heq]
    have hlen : (sortKeywords ks).length = ks.length := by simp [sortKeywords]
    rw [List.take_of_length_le (by omega)]
    exact hperm
  · intro kvs h
    simp [volume, h]

/-- C7 (witness): on six records with distinct volumes the limited list has
exactly five records, and a two-record input comes back whole. -/
theorem limitKeywords_spec_witness :
    (limitKeywordsList [kwRec "a" 1, kwRec "b" 5, kwRec "c" 3, kwRec "d" 2,
        kwRec "e" 4, kwRec "f" 6]).length = 5
    ∧ List.Perm (limitKeywordsList [kwRec "x" 1, kwRec "y" 2])
        [kwRec "x" 1, kwRec "y" 2] :=
  ⟨((limitKeywords_spec _).2.2.2.1 (by decide) (by decide)).1,
    (limitKeywords_spec _).2.2.2.2.1 (by decide)⟩

/-- Every binding produced by the `_summarize_semantic_fields` loop (run
from an arbitrary accumulator) either was already in the accumulator or
summarizes a dictionary-valued theme of the input. -/
theorem mem_summarize_foldl (kvs : Obj) :
    ∀ (acc : Obj) (k : String) (v : Val),
      (k, v) ∈ kvs.foldl
        (fun acc kv =>
          match kv.2 with
          | .dict data => assocSet acc kv.1 (.dict (summarizeTheme data))
          | _ => acc) acc →
      (k, v) ∈ acc ∨ ∃ data, (k, Val.dict data) ∈ kvs ∧ v = Val.dict (summarizeTheme data) := by
  induction kvs with
  | nil =>
    intro acc k v h
    exact Or.inl h
  | cons hd rest ih =>
    intro acc k v h
    simp only [List.foldl_cons] at h
    rcases ih _ k v h with h' | ⟨data, hmem, hv⟩
    · obtain ⟨k0, v0⟩ := hd
      cases hv0 : v0 with
      | dict data =>
        rw [hv0] at h'
        rcases mem_assocSet _ _ h' with h2 | ⟨rfl, rfl⟩
        · exact Or.inl h2
        · exact Or.inr ⟨data, by simp [hv0], rfl⟩
      | str s => rw [hv0] at h'; exact Or.inl h'
      | num n => rw [hv0] at h'; exact Or.inl h'
      | list xs => rw [hv0] at h'; exact Or.inl h'
    · exact Or.inr ⟨data, List.mem_cons_of_mem _ hmem, hv⟩

/-- A key with no dictionary-valued binding in the input is untouched by
the `_summarize_semantic_fields` loop. -/
theorem lookup_summarize_foldl (kvs : Obj) :
    ∀ (acc : Obj) (k : String), (∀ data, (k, Val.dict data) ∉ kvs) →
      assocLookup
        (kvs.foldl
          (fun acc kv =>
            match kv.2 with
            | .dict data => assocSet acc kv.1 (.dict (summarizeTheme data))
            | _ => acc) acc) k
        = assocLookup acc k := by
  induction kvs with
  | nil =>
    intro acc k _
    rfl
  | cons hd rest ih =>
    intro acc k hk
    obtain ⟨k0, v0⟩ := hd
    simp only [List.foldl_cons]
    have hk' : ∀ data, (k, Val.dict data) ∉ rest :=
      fun data h => hk data (List.mem_cons_of_mem _ h)
    cases hv0 : v0 with
    | dict data =>
      rw [ih _ k hk']
      have hne : k ≠ k0 := by
        intro h
        exact hk data (by simp [h, hv0])
      exact assocLookup_assocSet_ne _ hne
    | str s => exact ih _ k hk'
    | num n => exact ih _ k hk'
    | list xs => exact ih _ k hk'

/-- A key bound in the accumulator stays bound across the
`_summarize_semantic_fields` loop: its final value is either the original
one or the summary of a dictionary-valued binding of that key in the
remaining input. -/
theorem lookup_summarize_foldl_some (rest : Obj) :
    ∀ (acc : Obj) (k : String) (v : Val), assocLookup acc k = some v →
      ∃ v2, assocLookup
          (rest.foldl
            (fun acc kv =>
              match kv.2 with
              | .dict data => assocSet acc kv.1 (.dict (summarizeTheme data))
              | _ => acc) acc) k = some v2
        ∧ (v2 = v ∨ ∃ d, (k, Val.dict d) ∈ rest ∧ v2 = Val.dict (summarizeTheme d)) := by
  induction rest with
  | nil =>
    intro acc k v h
    exact ⟨v, h, Or.inl rfl⟩
  | cons hd r ih =>
    intro acc k v h
    obtain ⟨k1, w⟩ := hd
    simp only [List.foldl_cons]
    cases hw : w with
    | dict d1 =>
      by_cases hk1 : k1 = k
      · subst hk1
        obtain ⟨v2, hv2, hcase⟩ :=
          ih _ k1 (Val.dict (summarizeTheme d1)) (assocLookup_assocSet_self acc k1 _)
        refine ⟨v2, hv2, Or.inr ?_⟩
        rcases hcase with rfl | ⟨d, hd, rfl⟩
        · exact ⟨d1, List.mem_cons_self _ _, rfl⟩
        · exact ⟨d, List.mem_cons_of_mem _ hd, rfl⟩
      · have hset : assocLookup (assocSet acc k1 (Val.dict (summarizeTheme d1))) k
            = some v := by
          rw [assocLookup_assocSet_ne _ (fun he => hk1 he.symm)]
          exact h
        obtain ⟨v2, hv2, hcase⟩ := ih _ k v hset
        refine ⟨v2, hv2, ?_⟩
        rcases hcase with rfl | ⟨d, hd, rfl⟩
        · exact Or.inl rfl
        · exact Or.inr ⟨d, List.mem_cons_of_mem _ hd, rfl⟩
    | str s =>
      obtain ⟨v2, hv2, hcase⟩ := ih _ k v h
      refine ⟨v2, hv2, ?_⟩
      rcases hcase with rfl | ⟨d, hd, rfl⟩
      · exact Or.inl rfl
      · exact Or.inr ⟨d, List.mem_cons_of_mem _ hd, rfl⟩
    | num n =>
      obtain ⟨v2, hv2, hcase⟩ := ih _ k v h
      refine ⟨v2, hv2, ?_⟩
      rcases hcase with rfl | ⟨d, hd, rfl⟩
      · exact Or.inl rfl
      · exact Or.inr ⟨d, List.mem_cons_of_mem _ hd, rfl⟩
    | list xs =>
      obtain ⟨v2, hv2, hcase⟩ := ih _ k v h
      refine ⟨v2, hv2, ?_⟩
      rcases hcase with rfl | ⟨d, hd, rfl⟩
      · exact Or.inl rfl
      · exact Or.inr ⟨d, List.mem_cons_of_mem _ hd, rfl⟩

/-- In an association list with pairwise distinct keys, a key determines
its value. -/
theorem mem_value_eq_of_pairwise_keys {kvs : Obj} {k : String} {v1 v2 : Val}
    (hnd : kvs.Pairwise (fun a b => a.1 ≠ b.1))
    (h1 : (k, v1) ∈ kvs) (h2 : (k, v2) ∈ kvs) : v1 = v2 := by
  induction kvs with
  | nil => simp at h1
  | cons hd tl ih =>
    obtain ⟨k0, w⟩ := hd
    obtain ⟨hhd, htl⟩ := List.pairwise_cons.mp hnd
    rcases List.mem_cons.mp h1 with he1 | h1'
    · rcases List.mem_cons.mp h2 with he2 | h2'
      · injection he1 with hk1 hv1
        injection he2 with hk2 hv2
        rw [hv1, hv2]
      · injection he1 with hk1 hv1
        exact absurd (hk1 ▸ rfl) (hhd _ h2')
    · rcases List.mem_cons.mp h2 with he2 | h2'
      · injection he2 with hk2 hv2
        exact absurd (hk2 ▸ rfl) (hhd _ h1')
      · exact ih htl h1' h2'

/-- C8: every theme in the summarized semantic fields comes from a
dictionary-valued theme of the input and equals its per-theme summary;
conversely every dictionary-valued theme of the input does produce an
output record — the summary of a dictionary-valued binding of that key,
and of that theme itself when the input keys are distinct (as Python dict
keys are); themes without a dictionary value are silently omitted; and
each per-theme summary keeps at most the first five `related_google`
entries, the full `search_intent` value, and at most the first three
`suggested_titles` entries. -/
theorem summarizeSemanticFields_spec (kvs : Obj) :
    (∀ k v, (k, v) ∈ summarizeSemanticFieldsObj kvs →
      ∃ data, (k, Val.dict data) ∈ kvs ∧ v = Val.dict (summarizeTheme data))
    ∧ (∀ k, (∀ data, (k, Val.dict data) ∉ kvs) →
      assocLookup (summarizeSemanticFieldsObj kvs) k = none)
    ∧ (∀ data xs, getField data "related_google" (Val.list []) = Val.list xs →
      getField (summarizeTheme data) "related_google" (Val.list [])
          = Val.list (xs.take 5)
      ∧ (xs.take 5).length ≤ 5)
    ∧ (∀ data, getField (summarizeTheme data) "search_intent" (Val.str "")
        = getField data "search_intent" (Val.str ""))
    ∧ (∀ data xs, getField data "suggested_titles" (Val.list []) = Val.list xs →
      getField (summarizeTheme data) "suggested_titles" (Val.list [])
          = Val.list (xs.take 3)
      ∧ (xs.take 3).length ≤ 3)
    ∧ (∀ k data, (k, Val.dict data) ∈ kvs →
      ∃ d2, (k, Val.dict d2) ∈ kvs
        ∧ assocLookup (summarizeSemanticFieldsObj kvs) k
            = some (Val.dict (summarizeTheme d2)))
    ∧ (kvs.Pairwise (fun a b => a.1 ≠ b.1) →
      ∀ k data, (k, Val.dict data) ∈ kvs →
        assocLookup (summarizeSemanticFieldsObj kvs) k
          = some (Val.dict (summarizeTheme data))) := by
  have hproduce : ∀ (kvs : Obj) (acc : Obj) (k : String) (data : Obj),
      (k, Val.dict data) ∈ kvs →
      ∃ d2, (k, Val.dict d2) ∈ kvs
        ∧ assocLookup
            (kvs.foldl
              (fun acc kv =>
                match kv.2 with
                | .dict data => assocSet acc kv.1 (.dict (summarizeTheme data))
                | _ => acc) acc) k
          = some (Val.dict (summarizeTheme d2)) := by
    intro kvs
    induction kvs with
    | nil =>
      intro acc k data h
      simp at h
    | cons hd r ih =>
      intro acc k data h
      obtain ⟨k1, w⟩ := hd
      simp only [List.foldl_cons]
      rcases List.mem_cons.mp h with he | htail
      · injection he with hk hw
        subst hk
        rw [← hw]
        obtain ⟨v2, hv2, hcase⟩ := lookup_summarize_foldl_some r _ k _
          (assocLookup_assocSet_self acc k (Val.dict (summarizeTheme data)))
        rcases hcase with rfl | ⟨d, hd2, rfl⟩
        · exact ⟨data, by simp, hv2⟩
        · exact ⟨d, List.mem_cons_of_mem _ hd2, hv2⟩
      · obtain ⟨d2, hd2, hl⟩ := ih _ k data htail
        exact ⟨d2, List.mem_cons_of_mem _ hd2, hl⟩
  refine ⟨?_, ?_, ?_, ?_, ?_, ?_, ?_⟩
  · intro k v h
    rcases mem_summarize_foldl kvs [] k v h with h' | h'
    · simp at h'
    · exact h'
  · intro k hk
    exact lookup_summarize_foldl kvs [] k hk
  · intro data xs h
    constructor
    · show sliceVal 5 (getField data "related_google" (Val.list [])) = _
      rw [h]
      rfl
    · exact xs.length_take_le 5
  · intro data
    rfl
  · intro data xs h
    constructor
    · show sliceVal 3 (getField data "suggested_titles" (Val.list [])) = _
      rw [h]
      rfl
    · exact xs.length_take_le 3
  · intro k data h
    exact hproduce kvs [] k data h
  · intro hnd k data h
    obtain ⟨d2, hd2, hl⟩ := hproduce kvs [] k data h
    have hval : Val.dict data = Val.dict d2 :=
      mem_value_eq_of_pairwise_keys hnd h hd2
    injection hval with hdd
    rw [hdd]
    exact hl

/-- A concrete semantic-fields mapping exercising the summarization: one
dictionary-valued theme with oversized entry lists and one string-valued
theme that must be dropped. -/
def semDemo : Obj :=
  [("t1", Val.dict
      [("related_google", Val.list (List.replicate 7 (Val.str "g"))),
       ("search_intent", Val.str "info"),
       ("suggested_titles", Val.list (List.replicate 4 (Val.str "t")))]),
   ("skipme", Val.str "x")]

/-- C8 (witness): on `semDemo` the non-dictionary theme is omitted, the
dictionary-valued theme `t1` does produce its summarized record in the
output — with the `related_google` list cut to five entries, the full
`search_intent`, and the `suggested_titles` list cut to three — and the
per-theme limits hold at the concrete record. -/
theorem summarizeSemanticFields_spec_witness :
    assocLookup (summarizeSemanticFieldsObj semDemo) "skipme" = none
    ∧ assocLookup (summarizeSemanticFieldsObj semDemo) "t1"
        = some (Val.dict
            [("related_google", Val.list (List.replicate 5 (Val.str "g"))),
             ("search_intent", Val.str "info"),
             ("suggested_titles", Val.list (List.replicate 3 (Val.str "t")))])
    ∧ getField (summarizeTheme
        [("related_google", Val.list (List.replicate 7 (Val.str "g"))),
         ("search_intent", Val.str "info"),
         ("suggested_titles", Val.list (List.replicate 4 (Val.str "t")))])
        "related_google" (Val.list []) = Val.list (List.replicate 5 (Val.str "g")) := by
  refine ⟨?_, ?_, ?_⟩
  · refine (summarizeSemanticFields_spec semDemo).2.1 "skipme" ?_
    intro data h
    simp [semDemo] at h
  · have h := (summarizeSemanticFields_spec semDemo).2.2.2.2.2.2 (by decide) "t1"
      [("related_google", Val.list (List.replicate 7 (Val.str "g"))),
       ("search_intent", Val.str "info"),
       ("suggested_titles", Val.list (List.replicate 4 (Val.str "t")))]
      (List.mem_cons_self _ _)
    rw [h]
    rfl
  · have h := ((summarizeSemanticFields_spec semDemo).2.2.1
      [("related_google", Val.list (List.replicate 7 (Val.str "g"))),
       ("search_intent", Val.str "info"),
       ("suggested_titles", Val.list (List.replicate 4 (Val.str "t")))]
      (List.replicate 7 (Val.str "g")) rfl).1
    rw [h]
    simp [List.take_replicate]

/-- C9: the `content` stage view extends the `seo` stage view — every
binding the seo view answers is answered identically by the content view —
and additionally carries `format_recommendations`, `blog` and
`brief_summary` taken from the pool (with the usual empty-string default
when absent). -/
theorem contentContext_superset (pool : Obj) :
    (∀ k v, assocLookup (stageContext pool "seo") k = some v →
      assocLookup (stageContext pool "content") k = some v)
    ∧ assocLookup (stageContext pool "content") "format_recommendations"
        = some (getField pool "format_recommendations" (Val.str ""))
    ∧ assocLookup (stageContext pool "content") "blog"
        = some (getField pool "blog" (Val.str ""))
    ∧ assocLookup (stageContext pool "content") "brief_summary"
        = some (getField pool "brief_summary" (Val.str "")) := by
  refine ⟨?_, rfl, rfl, rfl⟩
  intro k v h
  have e : stageContext pool "content"
      = stageContext pool "seo" ++
        [("format_recommendations", getField pool "format_recommendations" (Val.str "")),
         ("blog", getField pool "blog" (Val.str "")),
         ("brief_summary", getField pool "brief_summary" (Val.str ""))] := rfl
  rw [e]
  exact assocLookup_append_left _ h

/-- C9 (witness): on the scenario pool the limited keyword list of the seo
view reappears unchanged in the content view. -/
theorem contentContext_superset_witness :
    assocLookup (stageContext demoPool "seo") "theme_keywords"
        = some (Val.list demoLimited)
    ∧ assocLookup (stageContext demoPool "content") "theme_keywords"
        = some (Val.list demoLimited) :=
  ⟨rfl, (contentContext_superset demoPool).1 _ _ rfl⟩

/-- Splitting a character list at its first occurrence of `'_'` is
unambiguous: if neither prefix contains `'_'`, equal lists split equally. -/
theorem split_first_sep {a1 : List Char} :
    ∀ {a2 b1 b2 : List Char}, '_' ∉ a1 → '_' ∉ a2 →
      a1 ++ '_' :: b1 = a2 ++ '_' :: b2 → a1 = a2 ∧ b1 = b2 := by
  induction a1 with
  | nil =>
    intro a2 b1 b2 _ h2 h
    cases a2 with
    | nil => simpa using h
    | cons c cs =>
      simp only [List.nil_append, List.cons_append, List.cons.injEq] at h
      exact absurd (h.1 ▸ List.mem_cons_self c cs) h2
  | cons c cs ih =>
    intro a2 b1 b2 h1 h2 h
    cases a2 with
    | nil =>
      simp only [List.nil_append, List.cons_append, List.cons.injEq] at h
      exact absurd (h.1 ▸ List.mem_cons_self c cs) h1
    | cons d ds =>
      simp only [List.cons_append, List.cons.injEq] at h
      obtain ⟨rfl, h'⟩ := h
      have h1' : '_' ∉ cs := fun hm => h1 (List.mem_cons_of_mem _ hm)
      have h2' : '_' ∉ ds := fun hm => h2 (List.mem_cons_of_mem _ hm)
      obtain ⟨rfl, hb⟩ := ih h1' h2' h'
      exact ⟨rfl, hb⟩

/-- C10: the stage resolver only produces the eight stage names; none of
them contains an underscore; and therefore the cache key
`role ++ "_" ++ stage` is injective on role strings paired with resolver
stages — two distinct (role, stage) pairs never share a cache entry. -/
theorem cacheKey_injective :
    (∀ role task, getTaskStage role task ∈ stageNames)
    ∧ (∀ s ∈ stageNames, '_' ∉ s.data)
    ∧ (∀ r1 r2 s1 s2 : String, s1 ∈ stageNames → s2 ∈ stageNames →
        cacheKey r1 s1 = cacheKey r2 s2 → r1 = r2 ∧ s1 = s2) := by
  have hnosep : ∀ s ∈ stageNames, '_' ∉ s.data := by
    intro s hs
    simp only [stageNames, List.mem_cons, List.not_mem_nil, or_false] at hs
    rcases hs with rfl | rfl | rfl | rfl | rfl | rfl | rfl | rfl <;> decide
  refine ⟨?_, hnosep, ?_⟩
  · intro role task
    rw [getTaskStage_eq]
    cases h : assocLookup (taskMapOf role) task with
    | none => decide
    | some s =>
      have hmem : (task, s) ∈ taskMapOf role := assocLookup_mem h
      have hrole : taskMapOf role = [] ∨ taskMapOf role ∈ TASK_STAGE_MAPPING.map Prod.snd := by
        unfold taskMapOf
        cases h2 : assocLookup TASK_STAGE_MAPPING role with
        | none => exact Or.inl rfl
        | some m =>
          refine Or.inr ?_
          exact List.mem_map_of_mem Prod.snd (assocLookup_mem h2)
      rcases hrole with h3 | h3
      · rw [h3] at hmem
        simp at hmem
      · simp only [TASK_STAGE_MAPPING, List.map_cons, List.map_nil, List.mem_cons,
          List.not_mem_nil, or_false] at h3
        rcases h3 with h3 | h3 | h3 | h3 | h3 | h3 | h3 <;>
          · rw [h3] at hmem
            simp only [List.mem_cons, List.not_mem_nil, or_false, Prod.mk.injEq] at hmem
            first
            | (rcases hmem with ⟨-, rfl⟩ | ⟨-, rfl⟩ <;> decide)
            | (obtain ⟨-, rfl⟩ := hmem
               decide)
  · intro r1 r2 s1 s2 hs1 hs2 h
    have hd : r1.data ++ '_' :: s1.data = r2.data ++ '_' :: s2.data := by
      have h' := congrArg String.data h
      simpa [cacheKey] using h'
    have h1 := hnosep s1 hs1
    have h2 := hnosep s2 hs2
    have hrev : s1.data.reverse ++ '_' :: r1.data.reverse
        = s2.data.reverse ++ '_' :: r2.data.reverse := by
      have h' := congrArg List.reverse hd
      simpa [List.reverse_append] using h'
    obtain ⟨hs, hr⟩ := split_first_sep
      (by simpa using h1) (by simpa using h2) hrev
    constructor
    · exact String.ext (List.reverse_injective hr)
    · exact String.ext (List.reverse_injective hs)

/-- C10 (witness): the injectivity conjunct applied at a concrete role and
stage; by injectivity the only instance with equal keys is the diagonal
one. -/
theorem cacheKey_injective_witness :
    ("brand_strategist" : String) = "brand_strategist" ∧ ("seo" : String) = "seo" :=
  cacheKey_injective.2.2 "brand_strategist" "brand_strategist" "seo" "seo"
    (by decide) (by decide) rfl

end ContextChunking
